import Mathlib

/-!
# Shallow embedding of the `torch_frame` Dataset materialization core

This file embeds `src/torch_frame/data/dataset.py` — construction, the
`materialize` pipeline, the materialization-state guards, `index_select` and
`col_select` — as executable Lean definitions, and proves the behavioural
properties of that code.

The collaborators that `dataset.py` imports but whose sources are not part of
the core (`compute_col_stats`, `CategoricalTensorMapper`,
`NumericalTensorMapper`, `TensorFrame`) are modelled from the specification;
each such definition carries a doc comment starting with `Modelled from the
spec:`.

Scalar conventions of the embedding:
* data-frame cells are integers or strings (`Val`);
* tensor scalars are integers (the real code stores floating-point tensors;
  none of the verified properties depends on fractional numeric values, and
  categorical index tensors are integral in the source as well);
* Python floats appearing as fractional slice bounds are represented exactly
  as numerator/denominator pairs (`PyFloat`), with Python's banker's rounding.
-/

namespace TorchFrame

/-- Boolean equality test on `Except` values. -/
def exceptBeq {ε α : Type} [DecidableEq ε] [DecidableEq α] :
    Except ε α → Except ε α → Bool
  | .error e, .error f => decide (e = f)
  | .ok a, .ok b => decide (a = b)
  | .error _, .ok _ => false
  | .ok _, .error _ => false

instance {ε α : Type} [DecidableEq ε] [DecidableEq α] : DecidableEq (Except ε α) :=
  fun x y =>
    decidable_of_iff (exceptBeq x y = true) (by cases x <;> cases y <;> simp [exceptBeq])

/-- A cell value of the tabular data frame: an integer or a string. -/
inductive Val : Type where
  | vInt (n : Int)
  | vStr (s : String)
deriving DecidableEq

/-- Lexicographic comparison of character lists by code point, the order
`pandas.Series.sort_index` uses on Python strings. -/
def chLe : List Char → List Char → Bool
  | [], _ => true
  | _ :: _, [] => false
  | a :: as, b :: bs =>
      if a.toNat < b.toNat then true
      else if a.toNat = b.toNat then chLe as bs
      else false

/-- Boolean order on cell values: integers numerically, strings
lexicographically.  A single column's categories are homogeneous in practice;
the cross-type case is given a fixed arbitrary direction. -/
def Val.leb : Val → Val → Bool
  | .vInt a, .vInt b => decide (a ≤ b)
  | .vInt _, .vStr _ => true
  | .vStr _, .vInt _ => false
  | .vStr a, .vStr b => chLe a.data b.data

/-- The order on cell values as a relation. -/
def Val.le (a b : Val) : Prop := Val.leb a b = true

instance : DecidableRel Val.le :=
  fun a b => decidable_of_iff (Val.leb a b = true) Iff.rfl

/-- Order on (category, count) pairs by the category component; this is the
key order of `pandas.Series.sort_index`. -/
def keyLe (p q : Val × Nat) : Prop := Val.le p.1 q.1

instance : DecidableRel keyLe :=
  fun p q => decidable_of_iff (Val.leb p.1 q.1 = true) Iff.rfl

/-- Association-list lookup (Python dict read `m[k]`, as an `Option`). -/
def alookup {κ β : Type} [DecidableEq κ] : List (κ × β) → κ → Option β
  | [], _ => none
  | (k, v) :: rest, k' => if k = k' then some v else alookup rest k'

/-- Association-list update (Python dict assignment `m[k] = v`): overwrite the
entry in place if the key exists, else append it. -/
def aupsert {κ β : Type} [DecidableEq κ] : List (κ × β) → κ → β → List (κ × β)
  | [], k, v => [(k, v)]
  | (k0, v0) :: rest, k, v =>
      if k0 = k then (k0, v) :: rest else (k0, v0) :: aupsert rest k v

/-- `collections.defaultdict(list)` element append: `m[k].append(v)`. -/
def dappend {κ β : Type} [DecidableEq κ] :
    List (κ × List β) → κ → β → List (κ × List β)
  | [], k, v => [(k, [v])]
  | (k0, vs) :: rest, k, v =>
      if k0 = k then (k0, vs ++ [v]) :: rest else (k0, vs) :: dappend rest k v

/-- Semantic type of a column.  Modelled from the spec: an extensible
enumeration; `numerical` and `categorical` are the registered members, and
`unregistered` stands for any extension member that has no registered
statistics calculator or tensor mapper. -/
inductive Stype : Type where
  | numerical
  | categorical
  | unregistered
deriving DecidableEq

/-- Statistic kinds stored per column. -/
inductive StatType : Type where
  | COUNT
  | MEAN
deriving DecidableEq

/-- A computed statistic value.  `countVal` is the (categories, counts) pair
for a categorical column; `numSummary` is the numerical distribution summary
(modelled by the exact sufficient statistics: sum and count). -/
inductive StatVal : Type where
  | countVal (cats : List Val) (counts : List Nat)
  | numSummary (sum : Int) (cnt : Nat)
deriving DecidableEq

/-- Per-column statistics: a map from statistic kind to value. -/
abbrev ColStats : Type := List (StatType × StatVal)

/-- The dataset's column statistics: column name to its `ColStats`. -/
abbrev Stats : Type := List (String × ColStats)

/-- A pandas data frame: a row count and named columns of cell values
(well-formed frames have every column of length `nrows`). -/
structure DataFrame : Type where
  nrows : Nat
  cols : List (String × List Val)
deriving DecidableEq

/-- Column read `df[col]`.  A missing column raises `KeyError` in pandas; the
construction-time invariant of `Dataset` guarantees presence for every column
the pipeline reads, so the embedding totalizes the read with `[]`. -/
def DataFrame.getCol (df : DataFrame) (c : String) : List Val :=
  (alookup df.cols c).getD []

/-- The list of column names of the frame (`df.columns`). -/
def DataFrame.colNames (df : DataFrame) : List String :=
  df.cols.map Prod.fst

/-- Row gather `df.iloc[ks]` for an already-resolved list of row positions:
the result has one row per position, in order. -/
def DataFrame.gather (df : DataFrame) (ks : List Nat) : DataFrame :=
  ⟨ks.length, df.cols.map (fun p => (p.1, ks.map (fun k => p.2.getD k (Val.vInt 0))))⟩

/-- Column projection `df[cols]`: `KeyError` (modelled as failure) if a
requested column is absent. -/
def DataFrame.select (df : DataFrame) (cs : List String) : Option DataFrame :=
  if cs.all (fun c => (alookup df.cols c).isSome) then
    some ⟨df.nrows, cs.map (fun c => (c, (alookup df.cols c).getD []))⟩
  else none

/-- The distinct values of a list, in order of first appearance. -/
def uniqueInOrder (vals : List Val) : List Val :=
  vals.foldl (fun acc v => if v ∈ acc then acc else acc ++ [v]) []

/-- Descending-frequency order used by `pandas.Series.value_counts`. -/
def descCnt (vals : List Val) (a b : Val) : Prop := vals.count b ≤ vals.count a

instance (vals : List Val) : DecidableRel (descCnt vals) :=
  fun a b => Nat.decLe (vals.count b) (vals.count a)

/-- Modelled from the spec: the categorical statistics calculator's
(categories, counts) pair — distinct values with their occurrence counts,
sorted by descending frequency. -/
def valueCounts (vals : List Val) : List Val × List Nat :=
  let cats := List.insertionSort (descCnt vals) (uniqueInOrder vals)
  (cats, cats.map (fun v => vals.count v))

/-- `pandas.Series(index=cats, data=cnts).sort_index()`: the (category, count)
pairs re-sorted ascending by category value.  The categories are distinct, so
the sorted result is order-unique and the choice of sorting algorithm is
immaterial. -/
def sortPairs (cats : List Val) (cnts : List Nat) : List Val × List Nat :=
  let ps := List.insertionSort keyLe (cats.zip cnts)
  (ps.map Prod.fst, ps.map Prod.snd)

/-- Modelled from the spec: the statistics-computation function keyed by
semantic type.  For `numerical` it returns a distribution summary, for
`categorical` the (categories, counts) pair; for a semantic type with no
registered calculator it fails with `UnsupportedSemanticType`. -/
def compute_col_stats (vals : List Val) : Stype → Option ColStats
  | .numerical =>
      some [(StatType.MEAN,
             StatVal.numSummary (vals.foldl (fun a v => a + match v with
               | .vInt n => n
               | .vStr _ => 0) 0) vals.length)]
  | .categorical =>
      some [(StatType.COUNT, StatVal.countVal (valueCounts vals).1 (valueCounts vals).2)]
  | .unregistered => none

/-- Position of a value in a category list, if present. -/
def idxOfV (v : Val) : List Val → Option Nat
  | [] => none
  | c :: rest => if c = v then some 0 else (idxOfV v rest).map (· + 1)

/-- Modelled from the spec: `CategoricalTensorMapper(categories)` — each raw
value is mapped to its position in the category sequence, and an unseen value
to the reserved missing index `-1`. -/
def catCode (cats : List Val) (v : Val) : Int :=
  match idxOfV v cats with
  | some i => (i : Int)
  | none => -1

/-- Modelled from the spec: `NumericalTensorMapper` — direct numeric cast of a
cell (integer cells keep their value; the embedding's tensor scalars are
integers). -/
def numCast : Val → Int
  | .vInt n => n
  | .vStr _ => 0

/-- `torch.stack(xs, dim=1)`: a list of column tensors of equal length `n`
becomes the row-major `n × k` matrix. -/
def stackCols (cols : List (List Int)) : List (List Int) :=
  match cols with
  | [] => []
  | c0 :: _ => (List.range c0.length).map (fun i => cols.map (fun col => col.getD i 0))

/-- Modelled from the spec: the `TensorFrame` tensor bundle — per-semantic-type
stacked feature tensors, the aligned column-name lists, and the optional
target tensor. -/
structure TensorFrame : Type where
  x_dict : List (Stype × List (List Int))
  col_names_dict : List (Stype × List String)
  y : Option (List Int)
deriving DecidableEq

/-- Modelled from the spec: row slicing of a `TensorFrame` — every per-type
feature tensor and the target tensor are sliced along the row axis with the
same resolved index list, in the same order. -/
def TensorFrame.gather (tf : TensorFrame) (ks : List Nat) : TensorFrame :=
  ⟨tf.x_dict.map (fun p => (p.1, ks.map (fun k => p.2.getD k []))),
   tf.col_names_dict,
   tf.y.map (fun ys => ks.map (fun k => ys.getD k 0))⟩

/-- The error kinds the embedded operations can raise.  `missingColumns` and
`removeMissing` are the two `ValueError`s reachable from `Dataset.__init__`
(the latter from `list.remove` inside `feat_cols` when the target column is
not a key of the type map); `notMaterialized` / `alreadyMaterialized` are the
guard `RuntimeError`s; `unsupported` is the spec's `UnsupportedSemanticType`;
`notImplemented` is the `NotImplementedError` of `_to_tensor_frame`. -/
inductive PyError : Type where
  | missingColumns (cols : Finset String)
  | removeMissing
  | notMaterialized
  | alreadyMaterialized
  | unsupported (st : Stype)
  | notImplemented (st : Stype)
  | keyError
  | typeError
  | indexError
  | sliceStepZero
deriving DecidableEq

/-- The `Dataset` aggregate: the data frame, the column→semantic-type map, the
optional target column, and the three fields filled by materialization
(`_is_materialized`, `_col_stats`, `_tensor_frame`). -/
structure Dataset : Type where
  df : DataFrame
  col_to_stype : List (String × Stype)
  target_col : Option String
  _is_materialized : Bool
  _col_stats : Stats
  _tensor_frame : Option TensorFrame
deriving DecidableEq

/-- `Dataset.feat_cols` as used by `__init__`: the type-map keys with the
target removed; `list.remove` raises `ValueError` when the target is set but
is not a key. -/
def featColsOf (c2s : List (String × Stype)) (target : Option String) :
    Except PyError (List String) :=
  match target with
  | none => .ok (c2s.map Prod.fst)
  | some t =>
      if t ∈ c2s.map Prod.fst then .ok ((c2s.map Prod.fst).erase t)
      else .error .removeMissing

/-- The `([] if target_col is None else [target_col])` summand of
`__init__`'s declared-column list. -/
def targetList : Option String → List String
  | none => []
  | some t => [t]

/-- The target column as a set. -/
def targetSet : Option String → Finset String
  | none => ∅
  | some t => {t}

/-- `Dataset.__init__`: store the fields, then check that every declared
column (feature columns plus target) exists in the data frame; the check
raises a `ValueError` naming the set of missing columns. -/
def Dataset.init (df : DataFrame) (c2s : List (String × Stype))
    (target : Option String) : Except PyError Dataset :=
  match featColsOf c2s target with
  | .error e => .error e
  | .ok fc =>
      let cols := fc ++ targetList target
      let missing := cols.toFinset \ df.colNames.toFinset
      if missing = ∅ then .ok ⟨df, c2s, target, false, [], none⟩
      else .error (.missingColumns missing)

/-- The set of declared columns (column-type-map keys plus the target column,
when set) that are missing from the table — the set named by `__init__`'s
missing-column error. -/
def missingOf (df : DataFrame) (c2s : List (String × Stype))
    (target : Option String) : Finset String :=
  ((c2s.map Prod.fst).toFinset ∪ targetSet target) \ df.colNames.toFinset

/-- `Dataset.__len__`: the number of rows of the data frame. -/
def Dataset.len (d : Dataset) : Nat := d.df.nrows

/-- The `is_materialized` property. -/
def Dataset.is_materialized (d : Dataset) : Bool := d._is_materialized

/-- The `tensor_frame` property, guarded by `requires_post_materialization`. -/
def Dataset.tensor_frame (d : Dataset) : Except PyError (Option TensorFrame) :=
  if d._is_materialized then .ok d._tensor_frame else .error .notMaterialized

/-- The `col_stats` property, guarded by `requires_post_materialization`. -/
def Dataset.col_stats (d : Dataset) : Except PyError Stats :=
  if d._is_materialized then .ok d._col_stats else .error .notMaterialized

/-- Step 1 of `materialize`: fill `_col_stats` column by column, in type-map
order, stopping at the first failing column.  Returns the (possibly partially
updated) statistics and the error, if any. -/
def statsGo (df : DataFrame) : List (String × Stype) → Stats → Stats × Option PyError
  | [], σ => (σ, none)
  | (c, st) :: rest, σ =>
      match compute_col_stats (df.getCol c) st with
      | none => (σ, some (.unsupported st))
      | some cs => statsGo df rest (aupsert σ c cs)

/-- The running state of `Dataset._to_tensor_frame`: the (mutable) column
statistics, the per-type feature-column accumulators `xs_dict` and
`col_names_dict`, the target tensor `y`, and the pending error. -/
structure TtfState : Type where
  stats : Stats
  xs : List (Stype × List (List Int))
  names : List (Stype × List String)
  y : Option (List Int)
  err : Option PyError
deriving DecidableEq

/-- One loop iteration of `Dataset._to_tensor_frame` for column `c` of
semantic type `st`: dispatch the tensor mapper on `st`; for a categorical
column read the stored (categories, counts) pair, and when `c` is the target
with exactly two categories re-sort the pair lexicographically and write it
back to the statistics before constructing the mapper; route the mapped
tensor to `y` if `c` is the target, else append it to the per-type feature
accumulators; an unregistered semantic type raises `NotImplementedError`. -/
def ttfStep (df : DataFrame) (target : Option String) (c : String) (st : Stype)
    (s : TtfState) : TtfState :=
  match st with
  | .numerical =>
      let out := (df.getCol c).map numCast
      if target = some c then { s with y := some out }
      else { s with xs := dappend s.xs .numerical out,
                    names := dappend s.names .numerical c }
  | .categorical =>
      match alookup s.stats c with
      | none => { s with err := some .keyError }
      | some cs =>
          match alookup cs StatType.COUNT with
          | some (.countVal cats0 cnts0) =>
              let resort := target = some c ∧ cats0.length = 2
              let cats := if resort then (sortPairs cats0 cnts0).1 else cats0
              let cnts := if resort then (sortPairs cats0 cnts0).2 else cnts0
              let stats' :=
                if resort then
                  aupsert s.stats c (aupsert cs StatType.COUNT (.countVal cats cnts))
                else s.stats
              let out := (df.getCol c).map (fun v => catCode cats v)
              if target = some c then { s with stats := stats', y := some out }
              else { s with stats := stats',
                            xs := dappend s.xs .categorical out,
                            names := dappend s.names .categorical c }
          | _ => { s with err := some .typeError }
  | .unregistered => { s with err := some (.notImplemented .unregistered) }

/-- The column loop of `Dataset._to_tensor_frame`, stopping at the first
error. -/
def ttfGo (df : DataFrame) (target : Option String) :
    List (String × Stype) → TtfState → TtfState
  | [], s => s
  | (c, st) :: rest, s =>
      let s' := ttfStep df target c st s
      if s'.err.isSome then s' else ttfGo df target rest s'

/-- `Dataset.materialize`: a no-op on an already-materialized dataset;
otherwise compute the column statistics, build the `TensorFrame`, and mark the
dataset materialized.  The returned pair is the post-state of the (in Python,
in-place mutated) dataset together with the raised error, if any; on error the
dataset keeps whatever statistics were computed before the failure but is
never marked materialized and gets no tensor frame. -/
def materialize (d : Dataset) : Dataset × Option PyError :=
  if d._is_materialized then (d, none)
  else
    match statsGo d.df d.col_to_stype d._col_stats with
    | (σ, some e) => ({ d with _col_stats := σ }, some e)
    | (σ, none) =>
        let s := ttfGo d.df d.target_col d.col_to_stype ⟨σ, [], [], none, none⟩
        match s.err with
        | some e => ({ d with _col_stats := s.stats }, some e)
        | none =>
            let tf : TensorFrame :=
              ⟨s.xs.map (fun p => (p.1, stackCols p.2)), s.names, s.y⟩
            ({ d with _col_stats := s.stats,
                      _tensor_frame := some tf,
                      _is_materialized := true }, none)

/-- A Python float value, represented exactly as `num / den` with `den > 0`
(binary floats are dyadic rationals, so this loses nothing). -/
structure PyFloat : Type where
  num : Int
  den : Nat
deriving DecidableEq

/-- Python `round` of `a / b` for `b > 0`: nearest integer, ties to even. -/
def bankerRound (a : Int) (b : Nat) : Int :=
  let f := a / (b : Int)
  let r := a % (b : Int)
  if 2 * r < (b : Int) then f
  else if (b : Int) < 2 * r then f + 1
  else if f % 2 = 0 then f else f + 1

/-- A bound of a Python slice: absent, an integer, or a float. -/
inductive SliceBound : Type where
  | none
  | int (i : Int)
  | float (q : PyFloat)
deriving DecidableEq

/-- The float-resolution step of `index_select` on a slice bound: a float
bound `q` is replaced by `round(q * n)` where `n` is the dataset length;
integer and absent bounds pass through. -/
def SliceBound.resolve (n : Nat) : SliceBound → Option Int
  | .none => Option.none
  | .int i => Option.some i
  | .float q => Option.some (bankerRound (q.num * (n : Int)) q.den)

/-- Re-wrap a resolved bound as a `SliceBound`. -/
def SliceBound.ofOpt : Option Int → SliceBound
  | Option.none => .none
  | Option.some i => .int i

/-- CPython's index adjustment for one slice bound (`PySlice_AdjustIndices`):
negative values count from the end, then the value is clamped to the valid
range for the sign of the step; an absent bound takes the default `dflt`. -/
def adjustB (n : Nat) (step : Int) (dflt : Int) : Option Int → Int
  | Option.none => dflt
  | Option.some v =>
      let v := if v < 0 then v + (n : Int) else v
      if v < 0 then (if step < 0 then -1 else 0)
      else if (n : Int) ≤ v then (if step < 0 then (n : Int) - 1 else (n : Int))
      else v

/-- Ascending slice enumeration: `start, start+st, …` while below `stop`
(arguments already adjusted, `st > 0`, `0 ≤ start`). -/
def upRange (start stop : Int) (st : Nat) : List Nat :=
  let len := (stop - start).toNat
  let cnt := (len + st - 1) / st
  (List.range cnt).map (fun k => start.toNat + st * k)

/-- Descending slice enumeration: `start, start-st, …` while above `stop`
(arguments already adjusted, `st > 0`). -/
def downRange (start stop : Int) (st : Nat) : List Nat :=
  let len := (start - stop).toNat
  let cnt := (len + st - 1) / st
  (List.range cnt).map (fun k => start.toNat - st * k)

/-- Python slice semantics `slice(start, stop, step)` over `n` rows, as the
list of selected row positions; a zero step raises `ValueError`. -/
def sliceIndices (n : Nat) (start? stop? : Option Int) (step? : Option Int) :
    Option (List Nat) :=
  let step := step?.getD 1
  if step = 0 then Option.none
  else if 0 < step then
    Option.some (upRange (adjustB n step 0 start?) (adjustB n step (n : Int) stop?) step.toNat)
  else
    Option.some (downRange (adjustB n step ((n : Int) - 1) start?)
      (adjustB n step (-1) stop?) (-step).toNat)

/-- An argument of `Dataset.index_select`: a single integer, a list of
integers, or a slice (whose bounds may be floats). -/
inductive IndexArg : Type where
  | int (i : Int)
  | list (is : List Int)
  | slice (start stop : SliceBound) (step : Option Int)
deriving DecidableEq

/-- `iloc` resolution of one integer row index over `n` rows: negative values
count from the end; out-of-range values raise `IndexError`. -/
def resolveIdx (n : Nat) (i : Int) : Option Nat :=
  if 0 ≤ i ∧ i < (n : Int) then some i.toNat
  else if -(n : Int) ≤ i ∧ i < 0 then some (i + (n : Int)).toNat
  else none

/-- `iloc` resolution of a list of integer row indices. -/
def resolveAll (n : Nat) : List Int → Option (List Nat)
  | [] => some []
  | i :: rest =>
      match resolveIdx n i, resolveAll n rest with
      | some k, some ks => some (k :: ks)
      | _, _ => none

/-- The tail of `index_select` common to every index shape: the shallow copy
whose `df` is the row-gathered frame and whose `_tensor_frame` is the
identically row-gathered tensor frame. -/
def applySel (d : Dataset) (ks : List Nat) : Dataset :=
  { d with df := d.df.gather ks,
           _tensor_frame := d._tensor_frame.map (fun tf => tf.gather ks) }

/-- `Dataset.index_select`, guarded by `requires_post_materialization`: a
single integer is wrapped into a one-element list; a slice first has float
bounds resolved as fractions of the row count and is then enumerated by
Python slice semantics; the resolved positions gather both the data frame and
the tensor frame. -/
def index_select (d : Dataset) (ix : IndexArg) : Except PyError Dataset :=
  if ¬ d._is_materialized then .error .notMaterialized
  else
    match ix with
    | .int i =>
        match resolveIdx d.df.nrows i with
        | some k => .ok (applySel d [k])
        | none => .error .indexError
    | .list is =>
        match resolveAll d.df.nrows is with
        | some ks => .ok (applySel d ks)
        | none => .error .indexError
    | .slice a b st =>
        match sliceIndices d.df.nrows (a.resolve d.df.nrows) (b.resolve d.df.nrows) st with
        | some ks => .ok (applySel d ks)
        | none => .error .sliceStepZero

/-- An argument of `Dataset.col_select`: a single column name or a list. -/
inductive ColsArg : Type where
  | one (s : String)
  | many (cs : List String)
deriving DecidableEq

/-- The column list `col_select` actually uses: a single name is wrapped; the
declared target column, when absent from the request, is appended. -/
def colsOf (target : Option String) (arg : ColsArg) : List String :=
  let cols := match arg with | .one s => [s] | .many cs => cs
  match target with
  | some t => if t ∈ cols then cols else cols ++ [t]
  | none => cols

/-- The dict comprehension `{col: self.col_to_stype[col] for col in cols}`;
`KeyError` if a requested column is not a key of the type map. -/
def pickStypes (m : List (String × Stype)) : List String → Except PyError (List (String × Stype))
  | [] => .ok []
  | c :: rest =>
      match alookup m c with
      | none => .error .keyError
      | some st =>
          match pickStypes m rest with
          | .error e => .error e
          | .ok l => .ok ((c, st) :: l)

/-- `Dataset.col_select`, guarded by `requires_pre_materialization`: project
the data frame and the column-type map to the requested columns (plus the
implicitly appended target). -/
def col_select (d : Dataset) (arg : ColsArg) : Except PyError Dataset :=
  if d._is_materialized then .error .alreadyMaterialized
  else
    let cols := colsOf d.target_col arg
    match d.df.select cols with
    | Option.none => .error .keyError
    | Option.some df' =>
        match pickStypes d.col_to_stype cols with
        | .error e => .error e
        | .ok m => .ok { d with df := df', col_to_stype := m }

/-- Reference-level view of a Python `Dataset` object: each mutable attribute
(`df`, `col_to_stype`, `_col_stats`, `_tensor_frame`) holds the address of a
heap object. -/
structure DatasetRefs : Type where
  df : Nat
  col_to_stype : Nat
  col_stats : Nat
  tensor_frame : Nat
deriving DecidableEq

/-- The addresses of the mutable objects a dataset holds. -/
def DatasetRefs.addrs (d : DatasetRefs) : Finset Nat :=
  {d.df, d.col_to_stype, d.col_stats, d.tensor_frame}

/-- Two dataset objects share mutable state when some mutable object is
reachable from both. -/
def sharesMutableState (a b : DatasetRefs) : Prop :=
  ¬ Disjoint a.addrs b.addrs

instance (a b : DatasetRefs) : Decidable (sharesMutableState a b) :=
  instDecidableNot

/-- Reference-level embedding of `index_select` (dataset.py lines 219-226):
`dataset = copy.copy(self)` copies the attribute references unchanged, then
`dataset.df` and `dataset._tensor_frame` are rebound to freshly allocated
objects (`self.df.iloc[...]` and `self._tensor_frame[index]` both construct
new objects); `fresh` is the next unused address. -/
def indexSelectRefs (self : DatasetRefs) (fresh : Nat) : DatasetRefs :=
  { self with df := fresh, tensor_frame := fresh + 1 }

/-- A heap of Python `list`-of-`str` objects, by address. -/
abbrev ListHeap : Type := List (Nat × List String)

/-- Reference-level embedding of the `cols` argument handling of `col_select`
(dataset.py lines 236-243): if the dataset is materialized the guard raises
before the body runs; otherwise, for a list argument the local `cols` is the
caller's list object itself, and `cols.append(self.target_col)` mutates that
object in place when the target is declared and absent from it.  Returns the
heap after the call. -/
def colSelectColsEffect (heap : ListHeap) (isMat : Bool) (target : Option String)
    (argAddr : Nat) : ListHeap :=
  if isMat then heap
  else
    let cur := (alookup heap argAddr).getD []
    match target with
    | some t => if t ∈ cur then heap else aupsert heap argAddr (cur ++ [t])
    | none => heap

/-- A ten-row data frame with one numerical column, a concrete instance for
the row-selection properties. -/
def exDf10 : DataFrame := ⟨10, [("a", (List.range 10).map (fun i => Val.vInt i))]⟩

/-- The dataset over `exDf10`, before materialization. -/
def exDs10raw : Dataset := ⟨exDf10, [("a", Stype.numerical)], none, false, [], none⟩

/-- The dataset over `exDf10`, materialized. -/
def exDs10 : Dataset := (materialize exDs10raw).1

/-- A three-row frame whose binary categorical target column has descending
value-count order ("b" before "a") differing from the lexicographic order. -/
def exDfBin : DataFrame := ⟨3, [("label", [Val.vStr "b", Val.vStr "b", Val.vStr "a"])]⟩

/-- The dataset over `exDfBin` with `label` as target, before
materialization. -/
def exDsBin : Dataset :=
  ⟨exDfBin, [("label", Stype.categorical)], some "label", false, [], none⟩

/-- A two-column frame for the construction and column-selection instances. -/
def exDfAB : DataFrame :=
  ⟨2, [("a", [Val.vInt 1, Val.vInt 2]), ("b", [Val.vInt 0, Val.vInt 1])]⟩

/-- The dataset over `exDfAB` with target `b`, before materialization. -/
def exDsAB : Dataset :=
  ⟨exDfAB, [("a", Stype.numerical), ("b", Stype.categorical)], some "b", false, [], none⟩

/-- A dataset declaring an unregistered semantic type for column `a`. -/
def exDsU : Dataset := ⟨exDfAB, [("a", Stype.unregistered)], none, false, [], none⟩

/-! ## Helper lemmas -/

theorem chLe_total : ∀ as bs : List Char, chLe as bs = true ∨ chLe bs as = true
  | [], _ => Or.inl rfl
  | _ :: _, [] => Or.inr rfl
  | a :: as, b :: bs => by
      by_cases h1 : a.toNat < b.toNat
      · left; simp [chLe, h1]
      · by_cases h2 : a.toNat = b.toNat
        · have hba : ¬ b.toNat < a.toNat := by omega
          rcases chLe_total as bs with h | h
          · left; simp [chLe, h1, h2, h]
          · right; simp [chLe, hba, h2.symm, h]
        · have hba : b.toNat < a.toNat := by omega
          right; simp [chLe, hba]

theorem chLe_trans : ∀ as bs cs : List Char,
    chLe as bs = true → chLe bs cs = true → chLe as cs = true
  | [], _, _ => by intro _ _; rfl
  | _ :: _, [], _ => by intro h _; simp [chLe] at h
  | _ :: _, _ :: _, [] => by intro _ h; simp [chLe] at h
  | a :: as, b :: bs, c :: cs => by
      intro h1 h2
      by_cases hab : a.toNat < b.toNat <;> by_cases hbc : b.toNat < c.toNat
      · have : a.toNat < c.toNat := by omega
        simp [chLe, this]
      · by_cases hbc2 : b.toNat = c.toNat
        · have : a.toNat < c.toNat := by omega
          simp [chLe, this]
        · simp [chLe, hbc, hbc2] at h2
      · by_cases hab2 : a.toNat = b.toNat
        · have : a.toNat < c.toNat := by omega
          simp [chLe, this]
        · simp [chLe, hab, hab2] at h1
      · by_cases hab2 : a.toNat = b.toNat
        · by_cases hbc2 : b.toNat = c.toNat
          · have hac : a.toNat = c.toNat := by omega
            have hlt : ¬ a.toNat < c.toNat := by omega
            simp [chLe, hab, hab2] at h1
            simp [chLe, hbc, hbc2] at h2
            simp [chLe, hlt, hac]
            exact chLe_trans as bs cs h1 h2
          · simp [chLe, hbc, hbc2] at h2
        · simp [chLe, hab, hab2] at h1

theorem Val.le_total' : ∀ a b : Val, Val.le a b ∨ Val.le b a := by
  intro a b
  cases a <;> cases b <;> simp [Val.le, Val.leb]
  · omega
  · exact chLe_total _ _

theorem Val.le_trans' : ∀ a b c : Val, Val.le a b → Val.le b c → Val.le a c := by
  intro a b c
  cases a <;> cases b <;> cases c <;> simp [Val.le, Val.leb] <;> first
    | omega
    | exact chLe_trans _ _ _

theorem alookup_aupsert_self {κ β : Type} [DecidableEq κ]
    (l : List (κ × β)) (k : κ) (v : β) : alookup (aupsert l k v) k = some v := by
  induction l with
  | nil => simp [aupsert, alookup]
  | cons p rest ih =>
      obtain ⟨k0, v0⟩ := p
      by_cases h : k0 = k <;> simp [aupsert, alookup, h, ih]

theorem alookup_aupsert_ne {κ β : Type} [DecidableEq κ]
    (l : List (κ × β)) (k k' : κ) (v : β) (h : k' ≠ k) :
    alookup (aupsert l k v) k' = alookup l k' := by
  induction l with
  | nil => simp [aupsert, alookup, Ne.symm h]
  | cons p rest ih =>
      obtain ⟨k0, v0⟩ := p
      by_cases h0 : k0 = k
      · subst h0
        simp [aupsert, alookup, Ne.symm h]
      · simp only [aupsert, alookup, h0, if_false]
        by_cases h1 : k0 = k' <;> simp [h1, ih]

theorem resolveAll_length (n : Nat) : ∀ (is : List Int) (ks : List Nat),
    resolveAll n is = some ks → ks.length = is.length
  | [], ks => by
      intro h
      simp [resolveAll] at h
      simp [← h]
  | i :: rest, ks => by
      intro h
      simp only [resolveAll] at h
      rcases h1 : resolveIdx n i with _ | k <;> rw [h1] at h
      · simp at h
      · rcases h2 : resolveAll n rest with _ | ks' <;> rw [h2] at h
        · simp at h
        · simp at h
          rw [← h]
          simp [resolveAll_length n rest ks' h2]

theorem resolve_ofOpt (n : Nat) (sb : SliceBound) :
    (SliceBound.ofOpt (sb.resolve n)).resolve n = sb.resolve n := by
  cases sb <;> rfl

/-! ## Claim theorems -/

/-- C4: the materialization-state guards hold: `col_select` on a materialized
dataset raises `AlreadyMaterializedError` before any part of its body runs
(so the dataset is untouched), while `index_select` and the `tensor_frame`
and `col_stats` accessors on an unmaterialized dataset raise
`NotMaterializedError`. -/
theorem materialization_guards (d : Dataset) :
    (d.is_materialized = true →
        ∀ arg : ColsArg, col_select d arg = .error .alreadyMaterialized) ∧
    (d.is_materialized = false →
        (∀ ix : IndexArg, index_select d ix = .error .notMaterialized) ∧
        d.tensor_frame = .error .notMaterialized ∧
        d.col_stats = .error .notMaterialized) := by
  unfold Dataset.is_materialized
  constructor
  · intro h arg
    simp [col_select, h]
  · intro h
    refine ⟨fun ix => ?_, ?_, ?_⟩ <;>
      simp [index_select, Dataset.tensor_frame, Dataset.col_stats, h]

theorem materialization_guards_witness :
    col_select exDs10 (ColsArg.many ["a"]) = .error .alreadyMaterialized ∧
    index_select exDsBin (IndexArg.int 0) = .error .notMaterialized :=
  ⟨(materialization_guards exDs10).1 (by decide) (ColsArg.many ["a"]),
   ((materialization_guards exDsBin).2 (by decide)).1 (IndexArg.int 0)⟩

/-- C5: after materialization, `index_select` with a list of integer row
indices (each resolvable by `iloc`, repeats allowed) returns a dataset whose
row count equals the length of the index list, and a single integer index is
wrapped into a one-row selection of length 1. -/
theorem index_select_length (d : Dataset) (h : d.is_materialized = true) :
    (∀ (is : List Int) (ks : List Nat), resolveAll d.df.nrows is = some ks →
        ∃ d', index_select d (.list is) = .ok d' ∧ d'.len = is.length) ∧
    (∀ (i : Int) (k : Nat), resolveIdx d.df.nrows i = some k →
        ∃ d', index_select d (.int i) = .ok d' ∧ d'.len = 1) := by
  have hm : d._is_materialized = true := h
  constructor
  · intro is ks hks
    refine ⟨applySel d ks, ?_, ?_⟩
    · simp [index_select, hm, hks]
    · simp [Dataset.len, applySel, DataFrame.gather,
        resolveAll_length d.df.nrows is ks hks]
  · intro i k hk
    refine ⟨applySel d [k], ?_, ?_⟩
    · simp [index_select, hm, hk]
    · simp [Dataset.len, applySel, DataFrame.gather]

theorem index_select_length_witness :
    ∃ d', index_select exDs10 (IndexArg.list [3, 3, 7]) = .ok d' ∧ d'.len = 3 :=
  (index_select_length exDs10 (by decide)).1 [3, 3, 7] [3, 3, 7] (by decide)

/-- C6: `index_select` on a slice first replaces each fractional bound `q` by
`round(q * n)` (`n` the dataset's row count) and only then slices; in
particular a slice from the start to the fractional stop one half, on a
ten-row materialized dataset, selects exactly rows 0,1,2,3,4. -/
theorem index_select_fractional_slice (d : Dataset) (h : d.is_materialized = true)
    (a b : SliceBound) (st : Option Int) :
    index_select d (.slice a b st) =
      index_select d (.slice (SliceBound.ofOpt (a.resolve d.df.nrows))
        (SliceBound.ofOpt (b.resolve d.df.nrows)) st) ∧
    (d.df.nrows = 10 →
      index_select d (.slice .none (.float ⟨1, 2⟩) .none) =
        .ok (applySel d [0, 1, 2, 3, 4])) := by
  have hm : d._is_materialized = true := h
  constructor
  · simp [index_select, hm, resolve_ofOpt]
  · intro h10
    have hs : sliceIndices d.df.nrows (SliceBound.resolve d.df.nrows SliceBound.none)
        (SliceBound.resolve d.df.nrows (SliceBound.float ⟨1, 2⟩)) Option.none =
          some [0, 1, 2, 3, 4] := by
      rw [h10]; decide
    simp [index_select, hm, hs]

theorem index_select_fractional_slice_witness :
    index_select exDs10
        (IndexArg.slice SliceBound.none (SliceBound.float ⟨1, 2⟩) Option.none) =
      .ok (applySel exDs10 [0, 1, 2, 3, 4]) :=
  (index_select_fractional_slice exDs10 (by decide) SliceBound.none
      (SliceBound.float ⟨1, 2⟩) Option.none).2 (by decide)

/-- C7 counterexample: at the reference level, the dataset `index_select`
returns shares mutable state with the original — `copy.copy(self)` copies the
`col_to_stype` and `_col_stats` dictionary references unchanged — refuting
the claim that no mutable structure is shared between original and result. -/
theorem index_select_shares_refs :
    sharesMutableState ⟨0, 1, 2, 3⟩ (indexSelectRefs ⟨0, 1, 2, 3⟩ 4) := by decide

/-- C7 amended: `index_select` rebinds the result's `df` and `_tensor_frame`
to freshly allocated objects (and, the operation being a copy-then-rebind,
the original's fields are untouched), but the result's `col_to_stype` and
`_col_stats` references are the original's own mutable dictionaries. -/
theorem index_select_ref_sharing (self : DatasetRefs) (fresh : Nat)
    (hf : ∀ x ∈ self.addrs, x < fresh) :
    (indexSelectRefs self fresh).df ∉ self.addrs ∧
    (indexSelectRefs self fresh).tensor_frame ∉ self.addrs ∧
    (indexSelectRefs self fresh).col_to_stype = self.col_to_stype ∧
    (indexSelectRefs self fresh).col_stats = self.col_stats := by
  refine ⟨?_, ?_, rfl, rfl⟩
  · intro hmem
    have h1 := hf _ hmem
    have h2 : (indexSelectRefs self fresh).df = fresh := rfl
    omega
  · intro hmem
    have h1 := hf _ hmem
    have h2 : (indexSelectRefs self fresh).tensor_frame = fresh + 1 := rfl
    omega

theorem index_select_ref_sharing_witness :
    (indexSelectRefs ⟨0, 1, 2, 3⟩ 4).df ∉ DatasetRefs.addrs ⟨0, 1, 2, 3⟩ ∧
    (indexSelectRefs ⟨0, 1, 2, 3⟩ 4).tensor_frame ∉ DatasetRefs.addrs ⟨0, 1, 2, 3⟩ ∧
    (indexSelectRefs ⟨0, 1, 2, 3⟩ 4).col_to_stype =
      (⟨0, 1, 2, 3⟩ : DatasetRefs).col_to_stype ∧
    (indexSelectRefs ⟨0, 1, 2, 3⟩ 4).col_stats =
      (⟨0, 1, 2, 3⟩ : DatasetRefs).col_stats :=
  index_select_ref_sharing ⟨0, 1, 2, 3⟩ 4 (by decide)

/-- C10: on an unmaterialized dataset with declared target `t`, `col_select`
called with a caller-supplied list that does not contain `t` appends `t` to
that very list object in place: after the call, the caller's list object
holds the original contents followed by `t`. -/
theorem col_select_mutates_cols_arg (heap : ListHeap) (a : Nat) (l : List String)
    (t : String) (hl : alookup heap a = some l) (hnt : t ∉ l) :
    alookup (colSelectColsEffect heap false (some t) a) a = some (l ++ [t]) := by
  simp only [colSelectColsEffect, Bool.false_eq_true, if_false, hl,
    Option.getD_some]
  simp only [hnt, if_false]
  exact alookup_aupsert_self heap a (l ++ [t])

theorem col_select_mutates_cols_arg_witness :
    alookup (colSelectColsEffect [(0, ["a"])] false (some "b") 0) 0 =
      some ["a", "b"] :=
  col_select_mutates_cols_arg [(0, ["a"])] 0 ["a"] "b" (by decide) (by decide)

/-- C2: `materialize` is idempotent: if materializing `d` succeeds and yields
post-state `d'`, then materializing `d'` is a no-op returning `d'` itself
with no error (the guard returns immediately, recomputing nothing). -/
theorem materialize_idempotent (d d' : Dataset) (h : materialize d = (d', none)) :
    materialize d' = (d', none) := by
  by_cases hm : d._is_materialized
  · have he : materialize d = (d, none) := by simp [materialize, hm]
    rw [he] at h
    have hd : d = d' := congrArg Prod.fst h
    subst hd
    exact he
  · unfold materialize at h
    rw [if_neg hm] at h
    rcases hsg : statsGo d.df d.col_to_stype d._col_stats with ⟨σ, e⟩
    rw [hsg] at h
    cases e with
    | some e => simp at h
    | none =>
        rcases herr : (ttfGo d.df d.target_col d.col_to_stype ⟨σ, [], [], none, none⟩).err
          with _ | e
        · simp only [herr] at h
          have hd := congrArg Prod.fst h
          simp only at hd
          subst hd
          simp [materialize]
        · simp only [herr] at h
          simp at h

theorem materialize_idempotent_witness : materialize exDs10 = (exDs10, none) :=
  materialize_idempotent exDs10raw exDs10 (by decide)

theorem statsGo_unregistered (df : DataFrame) :
    ∀ (l : List (String × Stype)) (σ : Stats) (c : String),
      (c, Stype.unregistered) ∈ l →
      (statsGo df l σ).2 = some (.unsupported .unregistered)
  | [], _, _ => by intro h; simp at h
  | (c0, st0) :: rest, σ, c => by
      intro hmem
      cases st0 with
      | unregistered => simp [statsGo, compute_col_stats]
      | numerical =>
          have hrest : (c, Stype.unregistered) ∈ rest := by
            rcases List.mem_cons.mp hmem with h | h
            · simp at h
            · exact h
          simp only [statsGo, compute_col_stats]
          exact statsGo_unregistered df rest _ c hrest
      | categorical =>
          have hrest : (c, Stype.unregistered) ∈ rest := by
            rcases List.mem_cons.mp hmem with h | h
            · simp at h
            · exact h
          simp only [statsGo, compute_col_stats]
          exact statsGo_unregistered df rest _ c hrest

/-- C3: declaring a column with a semantic type that has no registered
statistics calculator or tensor mapper makes `materialize` raise
`UnsupportedSemanticType`, abort the whole materialization, and leave the
dataset observably unmaterialized: `is_materialized` stays `false` and both
the `tensor_frame` and `col_stats` accessors still raise
`NotMaterializedError`. -/
theorem materialize_unsupported_aborts (d : Dataset) (hm : d.is_materialized = false)
    (c : String) (hc : (c, Stype.unregistered) ∈ d.col_to_stype) :
    (materialize d).2 = some (.unsupported .unregistered) ∧
    (materialize d).1.is_materialized = false ∧
    (materialize d).1.tensor_frame = .error .notMaterialized ∧
    (materialize d).1.col_stats = .error .notMaterialized := by
  have hm' : d._is_materialized = false := hm
  have herr := statsGo_unregistered d.df d.col_to_stype d._col_stats c hc
  rcases hsg : statsGo d.df d.col_to_stype d._col_stats with ⟨σ, e⟩
  rw [hsg] at herr
  simp only at herr
  subst herr
  have hmat : materialize d =
      ({ d with _col_stats := σ }, some (.unsupported .unregistered)) := by
    unfold materialize
    rw [hsg]
    simp [hm']
  refine ⟨?_, ?_, ?_, ?_⟩ <;> rw [hmat] <;>
    simp [Dataset.is_materialized, Dataset.tensor_frame, Dataset.col_stats, hm']

theorem materialize_unsupported_aborts_witness :
    (materialize exDsU).2 = some (.unsupported .unregistered) ∧
    (materialize exDsU).1.is_materialized = false ∧
    (materialize exDsU).1.tensor_frame = .error .notMaterialized ∧
    (materialize exDsU).1.col_stats = .error .notMaterialized :=
  materialize_unsupported_aborts exDsU (by decide) "a" (by decide)

/-- C9 counterexample: constructing a dataset whose declared target column
exists in the table but is not a key of the column-type map fails with the
unrelated `ValueError` raised by `list.remove` inside `feat_cols` — neither
successfully nor with a missing-column error — although no declared column is
missing from the table, contradicting the claim's "otherwise construction
succeeds". -/
theorem init_target_not_key_value_error :
    Dataset.init exDfAB [("a", Stype.numerical)] (some "b") =
      .error .removeMissing := by decide

/-- C9 amended: provided the target column, when set, is a key of the
column-type map (the data model's invariant on `targetColumn`), construction
succeeds exactly when every declared column exists in the table, and
otherwise fails with a missing-column error naming exactly the set of missing
columns; on success the dataset holds the given fields, unmaterialized. -/
theorem init_missing_columns (df : DataFrame) (c2s : List (String × Stype))
    (target : Option String)
    (hT : ∀ t, target = some t → t ∈ c2s.map Prod.fst) :
    (missingOf df c2s target = ∅ →
        Dataset.init df c2s target = .ok ⟨df, c2s, target, false, [], none⟩) ∧
    (missingOf df c2s target ≠ ∅ →
        Dataset.init df c2s target =
          .error (.missingColumns (missingOf df c2s target))) := by
  obtain ⟨fc, hfc, hset⟩ :
      ∃ fc, featColsOf c2s target = .ok fc ∧
        (fc ++ targetList target).toFinset =
          (c2s.map Prod.fst).toFinset ∪ targetSet target := by
    cases target with
    | none => exact ⟨c2s.map Prod.fst, rfl, by simp [targetList, targetSet]⟩
    | some t =>
        have ht : t ∈ c2s.map Prod.fst := hT t rfl
        refine ⟨(c2s.map Prod.fst).erase t, ?_, ?_⟩
        · simp [featColsOf, ht]
        · have h1 := List.perm_append_singleton t ((c2s.map Prod.fst).erase t)
          have h2 := List.perm_cons_erase ht
          simp only [targetList, targetSet]
          rw [List.toFinset_eq_of_perm _ _ h1, ← List.toFinset_eq_of_perm _ _ h2]
          exact (Finset.union_eq_left.mpr (by simp [ht])).symm
  have hinit : Dataset.init df c2s target =
      (if missingOf df c2s target = ∅
       then .ok ⟨df, c2s, target, false, [], none⟩
       else .error (.missingColumns (missingOf df c2s target))) := by
    unfold Dataset.init missingOf
    rw [hfc]
    simp only []
    rw [hset]
  constructor
  · intro hmiss; rw [hinit, if_pos hmiss]
  · intro hmiss; rw [hinit, if_neg hmiss]

theorem init_missing_columns_witness :
    Dataset.init exDfAB [("a", Stype.numerical), ("b", Stype.categorical)]
        (some "b") =
      .ok ⟨exDfAB, [("a", Stype.numerical), ("b", Stype.categorical)],
        some "b", false, [], none⟩ ∧
    Dataset.init (⟨2, []⟩ : DataFrame) [("a", Stype.numerical)] none =
      .error (.missingColumns (missingOf ⟨2, []⟩ [("a", Stype.numerical)] none)) :=
  ⟨(init_missing_columns exDfAB _ (some "b")
      (by intro t ht; injection ht with h; subst h; decide)).1 (by decide),
   (init_missing_columns ⟨2, []⟩ _ none (by intro t ht; simp at ht)).2 (by decide)⟩

theorem pickStypes_ok (m : List (String × Stype)) : ∀ (cols : List String),
    (∀ c ∈ cols, (alookup m c).isSome = true) →
    ∃ l, pickStypes m cols = .ok l ∧ l.map Prod.fst = cols ∧
      ∀ p ∈ l, alookup m p.1 = some p.2
  | [] => by intro _; exact ⟨[], rfl, rfl, by simp⟩
  | c :: rest => by
      intro h
      have hc := h c (by simp)
      rcases hlk : alookup m c with _ | st
      · rw [hlk] at hc; simp at hc
      · obtain ⟨l, hl, hmapfst, hall⟩ :=
          pickStypes_ok m rest (fun c' hc' => h c' (by simp [hc']))
        refine ⟨(c, st) :: l, ?_, ?_, ?_⟩
        · simp [pickStypes, hlk, hl]
        · simp [hmapfst]
        · intro p hp
          rcases List.mem_cons.mp hp with rfl | hp'
          · exact hlk
          · exact hall p hp'

/-- C8: on an unmaterialized dataset with declared target `t`, `col_select`
with a requested column list that omits `t` returns a dataset whose
column-type map lists exactly the requested columns followed by the implicitly
appended target, each bound to its original semantic type — the target is
never silently dropped. -/
theorem col_select_appends_target (d : Dataset) (hm : d.is_materialized = false)
    (t : String) (ht : d.target_col = some t) (cols : List String) (hnt : t ∉ cols)
    (hdf : ∀ c ∈ cols ++ [t], (alookup d.df.cols c).isSome = true)
    (hmap : ∀ c ∈ cols ++ [t], (alookup d.col_to_stype c).isSome = true) :
    ∃ d', col_select d (.many cols) = .ok d' ∧
      d'.col_to_stype.map Prod.fst = cols ++ [t] ∧
      ∀ p ∈ d'.col_to_stype, alookup d.col_to_stype p.1 = some p.2 := by
  have hm' : d._is_materialized = false := hm
  have hcols : colsOf d.target_col (.many cols) = cols ++ [t] := by
    simp [colsOf, ht, hnt]
  have hsel : d.df.select (cols ++ [t]) =
      some ⟨d.df.nrows,
        (cols ++ [t]).map (fun c => (c, (alookup d.df.cols c).getD []))⟩ := by
    unfold DataFrame.select
    rw [if_pos (List.all_eq_true.mpr hdf)]
  obtain ⟨l, hps, hmapfst, hall⟩ := pickStypes_ok d.col_to_stype (cols ++ [t]) hmap
  have hrun : col_select d (.many cols) =
      .ok { d with
        df := ⟨d.df.nrows,
          (cols ++ [t]).map (fun c => (c, (alookup d.df.cols c).getD []))⟩,
        col_to_stype := l } := by
    simp [col_select, hm', hcols, hsel, hps]
  exact ⟨_, hrun, hmapfst, fun p hp => hall p hp⟩

theorem statsGo_lookup_not_mem (df : DataFrame) :
    ∀ (l : List (String × Stype)) (σ : Stats) (t : String),
      t ∉ l.map Prod.fst →
      alookup (statsGo df l σ).1 t = alookup σ t
  | [], _, _ => by intro _; rfl
  | (c0, st0) :: rest, σ, t => by
      intro hmem
      simp only [List.map_cons, List.mem_cons, not_or] at hmem
      obtain ⟨hne, hrest⟩ := hmem
      cases hcs : compute_col_stats (df.getCol c0) st0 with
      | none => simp [statsGo, hcs]
      | some cs =>
          simp only [statsGo, hcs]
          rw [statsGo_lookup_not_mem df rest _ t hrest,
            alookup_aupsert_ne _ _ _ _ hne]

theorem statsGo_ok_lookup (df : DataFrame) :
    ∀ (l : List (String × Stype)) (σ : Stats) (t : String) (st : Stype),
      (l.map Prod.fst).Nodup → (t, st) ∈ l → (statsGo df l σ).2 = none →
      alookup (statsGo df l σ).1 t = compute_col_stats (df.getCol t) st
  | [], _, _, _ => by intro _ hmem; simp at hmem
  | (c0, st0) :: rest, σ, t, st => by
      intro hnd hmem hok
      simp only [List.map_cons, List.nodup_cons] at hnd
      obtain ⟨hc0, hndr⟩ := hnd
      cases hcs : compute_col_stats (df.getCol c0) st0 with
      | none => simp [statsGo, hcs] at hok
      | some cs =>
          simp only [statsGo, hcs] at hok ⊢
          rcases List.mem_cons.mp hmem with heq | hmemr
          · injection heq with h1 h2
            subst c0
            subst st0
            rw [statsGo_lookup_not_mem df rest _ t hc0,
              alookup_aupsert_self, hcs]
          · exact statsGo_ok_lookup df rest _ t st hndr hmemr hok

theorem ttfStep_not_target (df : DataFrame) (t c0 : String) (st0 : Stype)
    (s : TtfState) (hne : t ≠ c0) :
    (ttfStep df (some t) c0 st0 s).stats = s.stats ∧
    (ttfStep df (some t) c0 st0 s).y = s.y := by
  cases st0 with
  | numerical => simp [ttfStep, hne]
  | unregistered => simp [ttfStep]
  | categorical =>
      rcases halk : alookup s.stats c0 with _ | cs
      · simp [ttfStep, halk]
      · rcases hcnt : alookup cs StatType.COUNT with _ | sv
        · simp [ttfStep, halk, hcnt]
        · cases sv with
          | countVal cats0 cnts0 => simp [ttfStep, halk, hcnt, hne]
          | numSummary a b => simp [ttfStep, halk, hcnt]

theorem ttfGo_not_mem (df : DataFrame) (t : String) :
    ∀ (l : List (String × Stype)) (s : TtfState),
      t ∉ l.map Prod.fst →
      (ttfGo df (some t) l s).stats = s.stats ∧ (ttfGo df (some t) l s).y = s.y
  | [], s => by intro _; exact ⟨rfl, rfl⟩
  | (c0, st0) :: rest, s => by
      intro hmem
      simp only [List.map_cons, List.mem_cons, not_or] at hmem
      obtain ⟨hne, hrest⟩ := hmem
      obtain ⟨hs1, hs2⟩ := ttfStep_not_target df t c0 st0 s hne
      by_cases hse : (ttfStep df (some t) c0 st0 s).err.isSome = true
      · simp only [ttfGo]
        rw [if_pos hse]
        exact ⟨hs1, hs2⟩
      · simp only [ttfGo]
        rw [if_neg hse]
        obtain ⟨h1, h2⟩ := ttfGo_not_mem df t rest (ttfStep df (some t) c0 st0 s) hrest
        exact ⟨h1.trans hs1, h2.trans hs2⟩

theorem ttfGo_target (df : DataFrame) :
    ∀ (t : String) (l : List (String × Stype)) (s : TtfState) (cs : ColStats)
      (cats : List Val) (cnts : List Nat),
      (l.map Prod.fst).Nodup →
      (t, Stype.categorical) ∈ l →
      alookup s.stats t = some cs →
      alookup cs StatType.COUNT = some (StatVal.countVal cats cnts) →
      cats.length = 2 →
      (ttfGo df (some t) l s).err = none →
      alookup (ttfGo df (some t) l s).stats t =
        some (aupsert cs StatType.COUNT
          (StatVal.countVal (sortPairs cats cnts).1 (sortPairs cats cnts).2)) ∧
      (ttfGo df (some t) l s).y =
        some ((df.getCol t).map (catCode (sortPairs cats cnts).1))
  | t, [], s, cs, cats, cnts => by intro _ hmem; simp at hmem
  | t, (c0, st0) :: rest, s, cs, cats, cnts => by
      intro hnd hmem hcs hcnt hlen herr
      simp only [List.map_cons, List.nodup_cons] at hnd
      obtain ⟨hc0nm, hndr⟩ := hnd
      by_cases hct : c0 = t
      · subst t
        have hst0 : st0 = Stype.categorical := by
          rcases List.mem_cons.mp hmem with heq | hmemr
          · exact (congrArg Prod.snd heq).symm
          · exact absurd (List.mem_map_of_mem Prod.fst hmemr) hc0nm
        subst st0
        have hstep : ttfStep df (some c0) c0 Stype.categorical s =
            { s with
              stats := aupsert s.stats c0 (aupsert cs StatType.COUNT
                (StatVal.countVal (sortPairs cats cnts).1 (sortPairs cats cnts).2)),
              y := some ((df.getCol c0).map (catCode (sortPairs cats cnts).1)) } := by
          simp [ttfStep, hcs, hcnt, hlen]
        by_cases hse : (ttfStep df (some c0) c0 Stype.categorical s).err.isSome = true
        · simp only [ttfGo] at herr
          rw [if_pos hse] at herr
          rw [herr] at hse
          simp at hse
        · simp only [ttfGo] at herr ⊢
          rw [if_neg hse] at herr ⊢
          obtain ⟨h1, h2⟩ := ttfGo_not_mem df c0 rest
            (ttfStep df (some c0) c0 Stype.categorical s) hc0nm
          constructor
          · rw [h1, hstep]
            exact alookup_aupsert_self _ _ _
          · rw [h2, hstep]
      · have hmemr : (t, Stype.categorical) ∈ rest := by
          rcases List.mem_cons.mp hmem with heq | hmemr
          · exact absurd (congrArg Prod.fst heq).symm hct
          · exact hmemr
        have hne : t ≠ c0 := fun h => hct h.symm
        obtain ⟨hs1, hs2⟩ := ttfStep_not_target df t c0 st0 s hne
        by_cases hse : (ttfStep df (some t) c0 st0 s).err.isSome = true
        · simp only [ttfGo] at herr
          rw [if_pos hse] at herr
          rw [herr] at hse
          simp at hse
        · simp only [ttfGo] at herr ⊢
          rw [if_neg hse] at herr ⊢
          exact ttfGo_target df t rest (ttfStep df (some t) c0 st0 s) cs cats cnts
            hndr hmemr (by rw [hs1]; exact hcs) hcnt hlen herr

/-- C1: for a dataset with a categorical target column taking exactly two
distinct values, successful materialization stores the target's COUNT
statistic as the (categories, counts) pair re-sorted lexicographically by
category value, and builds the target tensor with the categorical mapper
constructed from that same lexicographically sorted category sequence — so
the tensor's index assignment matches the stored statistics. -/
theorem target_binary_count_lex_sorted (d : Dataset) (t : String)
    (hnd : (d.col_to_stype.map Prod.fst).Nodup)
    (hm : d.is_materialized = false)
    (ht : d.target_col = some t)
    (hst : (t, Stype.categorical) ∈ d.col_to_stype)
    (hbin : (uniqueInOrder (d.df.getCol t)).length = 2)
    (hok : (materialize d).2 = none) :
    ∃ cats cnts,
      alookup (materialize d).1._col_stats t =
        some [(StatType.COUNT, StatVal.countVal cats cnts)] ∧
      List.Pairwise Val.le cats ∧
      cats.Perm (uniqueInOrder (d.df.getCol t)) ∧
      ∃ tf, (materialize d).1._tensor_frame = some tf ∧
        tf.y = some ((d.df.getCol t).map (catCode cats)) := by
  have hm' : d._is_materialized = false := hm
  have hlen0 : (valueCounts (d.df.getCol t)).1.length = 2 := by
    show (List.insertionSort (descCnt (d.df.getCol t))
      (uniqueInOrder (d.df.getCol t))).length = 2
    rw [List.length_insertionSort]
    exact hbin
  rcases hsg : statsGo d.df d.col_to_stype d._col_stats with ⟨σ, e⟩
  cases e with
  | some e =>
      have hbad : (materialize d).2 = some e := by
        unfold materialize
        rw [hsg]
        simp [hm']
      rw [hbad] at hok
      simp at hok
  | none =>
      have hσt : alookup σ t =
          some [(StatType.COUNT,
            StatVal.countVal (valueCounts (d.df.getCol t)).1
              (valueCounts (d.df.getCol t)).2)] := by
        have h := statsGo_ok_lookup d.df d.col_to_stype d._col_stats t
          Stype.categorical hnd hst (by rw [hsg])
        rw [hsg] at h
        simpa [compute_col_stats] using h
      rcases herr : (ttfGo d.df (some t) d.col_to_stype
          ⟨σ, [], [], Option.none, Option.none⟩).err with _ | e2
      · obtain ⟨hstats, hy⟩ := ttfGo_target d.df t d.col_to_stype
          ⟨σ, [], [], Option.none, Option.none⟩
          [(StatType.COUNT,
            StatVal.countVal (valueCounts (d.df.getCol t)).1
              (valueCounts (d.df.getCol t)).2)]
          (valueCounts (d.df.getCol t)).1 (valueCounts (d.df.getCol t)).2
          hnd hst hσt rfl hlen0 herr
        have hmat : materialize d =
            ({ d with
              _col_stats := (ttfGo d.df (some t) d.col_to_stype
                ⟨σ, [], [], Option.none, Option.none⟩).stats,
              _tensor_frame := some
                ⟨(ttfGo d.df (some t) d.col_to_stype
                    ⟨σ, [], [], Option.none, Option.none⟩).xs.map
                  (fun p => (p.1, stackCols p.2)),
                 (ttfGo d.df (some t) d.col_to_stype
                   ⟨σ, [], [], Option.none, Option.none⟩).names,
                 (ttfGo d.df (some t) d.col_to_stype
                   ⟨σ, [], [], Option.none, Option.none⟩).y⟩,
              _is_materialized := true }, none) := by
          unfold materialize
          rw [hsg, ht]
          simp [hm', herr]
        refine ⟨(sortPairs (valueCounts (d.df.getCol t)).1
            (valueCounts (d.df.getCol t)).2).1,
          (sortPairs (valueCounts (d.df.getCol t)).1
            (valueCounts (d.df.getCol t)).2).2, ?_, ?_, ?_, ?_⟩
        · rw [hmat]
          simp only []
          rw [hstats]
          simp [aupsert]
        · have htot : IsTotal (Val × Nat) keyLe := ⟨fun p q => Val.le_total' p.1 q.1⟩
          have htrans : IsTrans (Val × Nat) keyLe :=
            ⟨fun p q r hpq hqr => Val.le_trans' p.1 q.1 r.1 hpq hqr⟩
          have hsorted := @List.sorted_insertionSort (Val × Nat) keyLe _ htot htrans
            ((valueCounts (d.df.getCol t)).1.zip (valueCounts (d.df.getCol t)).2)
          exact List.Pairwise.map Prod.fst (fun p q h => h) hsorted
        · have hp1 := List.perm_insertionSort keyLe
            ((valueCounts (d.df.getCol t)).1.zip (valueCounts (d.df.getCol t)).2)
          have hp2 := hp1.map Prod.fst
          rw [List.map_fst_zip _ _ (by simp [valueCounts])] at hp2
          have hp3 : (valueCounts (d.df.getCol t)).1.Perm
              (uniqueInOrder (d.df.getCol t)) :=
            List.perm_insertionSort (descCnt (d.df.getCol t))
              (uniqueInOrder (d.df.getCol t))
          exact hp2.trans hp3
        · refine ⟨_, by rw [hmat], ?_⟩
          exact hy
      · have hbad : (materialize d).2 = some e2 := by
          unfold materialize
          rw [hsg, ht]
          simp [hm', herr]
        rw [hbad] at hok
        simp at hok

theorem target_binary_count_lex_sorted_witness :
    ∃ cats cnts,
      alookup (materialize exDsBin).1._col_stats "label" =
        some [(StatType.COUNT, StatVal.countVal cats cnts)] ∧
      List.Pairwise Val.le cats ∧
      cats.Perm (uniqueInOrder (exDsBin.df.getCol "label")) ∧
      ∃ tf, (materialize exDsBin).1._tensor_frame = some tf ∧
        tf.y = some ((exDsBin.df.getCol "label").map (catCode cats)) :=
  target_binary_count_lex_sorted exDsBin "label" (by decide) (by decide) rfl
    (by decide) (by decide) (by decide)

theorem col_select_appends_target_witness :
    ∃ d', col_select exDsAB (.many ["a"]) = .ok d' ∧
      d'.col_to_stype.map Prod.fst = ["a"] ++ ["b"] ∧
      ∀ p ∈ d'.col_to_stype, alookup exDsAB.col_to_stype p.1 = some p.2 :=
  col_select_appends_target exDsAB (by decide) "b" rfl ["a"] (by decide)
    (by decide) (by decide)

end TorchFrame
